import Mathlib

/-!
Verification of the text-to-record parsing pipeline of `app.py`
(arxiv research assistant).

The Python code works line by line over strings, using `re` patterns and
plain `str` methods.  We embed it shallowly: strings are `List Char`
(converted from `String` at the API boundary), Python's `str.strip`,
`str.split('\n')`, `str.replace`, `str.startswith`, `in` and the specific
regular expressions of the source are modelled as executable functions on
`List Char`.  A parsed paper is a Python dict whose keys are created on
assignment; we model it as a structure with one `Option String` field per
key (`none` = key absent), since the code only ever uses these six keys.
-/

namespace ArxivApp

/-- Whitespace characters recognised by Python's `str.strip()` / regex `\s`
(ASCII range; the inputs of interest are ASCII). -/
def isPyWs (c : Char) : Bool :=
  c == ' ' || c == '\t' || c == '\n' || c == '\r' || c == '\x0b' || c == '\x0c'

/-- Space or tab, the character class `[ \t]` used by the sixth title pattern. -/
def isSpaceTab (c : Char) : Bool := c == ' ' || c == '\t'

/-- ASCII decimal digit, regex `\d` (ASCII model). -/
def isDigitC (c : Char) : Bool := '0' ≤ c && c ≤ '9'

/-- ASCII letter, regex `[A-Za-z]`. -/
def isAlphaC (c : Char) : Bool := ('A' ≤ c && c ≤ 'Z') || ('a' ≤ c && c ≤ 'z')

/-- Character class of the arXiv URL pattern: word characters (ASCII model
of `\w`), hyphen, slash and dot. -/
def isUrlC (c : Char) : Bool := isAlphaC c || isDigitC c || c == '_' || c == '-' || c == '/' || c == '.'

/-- Left strip of Python whitespace. -/
def lstripWs (l : List Char) : List Char := l.dropWhile isPyWs

/-- Python `str.strip()`: drop leading and trailing whitespace. -/
def pyStrip (l : List Char) : List Char :=
  ((lstripWs l).reverse.dropWhile isPyWs).reverse

/-- Python `str.split('\n')`: split on every newline, keeping empty pieces;
the result is never the empty list (`''.split('\n') == ['']`). -/
def splitLines : List Char → List (List Char)
  | [] => [[]]
  | c :: rest =>
    if c = '\n' then [] :: splitLines rest
    else
      match splitLines rest with
      | [] => [[c]]
      | m :: ms => (c :: m) :: ms

/-- Python `'\n'.join(...)`. -/
def joinLines : List (List Char) → List Char
  | [] => []
  | [l] => l
  | l :: ls => l ++ '\n' :: joinLines ls

/-- Python `pat in text` (substring test), for a non-empty pattern or not. -/
def containsSub (pat : List Char) : List Char → Bool
  | [] => pat.isEmpty
  | t@(_ :: rest) => pat.isPrefixOf t || containsSub pat rest

/-- Python `str.replace(ab, rep)` for a two-character pattern `a,b`:
replace all non-overlapping occurrences, scanning left to right. -/
def replace2 (a b : Char) (rep : List Char) : List Char → List Char
  | [] => []
  | [c] => [c]
  | x :: y :: r =>
    if x = a ∧ y = b then rep ++ replace2 a b rep r
    else x :: replace2 a b rep (y :: r)

/-- Consume the literal string `s` at the head of `l`, returning the rest. -/
def expectStr : List Char → List Char → Option (List Char)
  | [], l => some l
  | _ :: _, [] => none
  | p :: ps, c :: cs => if p = c then expectStr ps cs else none

/-- Consume the literal string `s` case-insensitively (re.IGNORECASE, ASCII). -/
def expectCI : List Char → List Char → Option (List Char)
  | [], l => some l
  | _ :: _, [] => none
  | p :: ps, c :: cs => if p.toLower = c.toLower then expectCI ps cs else none

/-- Consume `\d+` (one or more digits, greedy), returning the rest;
fails when the head is not a digit. -/
def matchDigits (l : List Char) : Option (List Char) :=
  if (l.takeWhile isDigitC).isEmpty then none else some (l.dropWhile isDigitC)

/-- Consume one optional literal character (regex `c?`, greedy). -/
def optChar (a : Char) : List Char → List Char
  | [] => []
  | c :: r => if c = a then r else c :: r

/-- Split `l` at the first occurrence of the two-character sequence `a,b`
(the lazy group of patterns such as `\*\*(.*?)\*\*`): return the part
before the occurrence and the part after it. -/
def splitFirst2 (a b : Char) : List Char → Option (List Char × List Char)
  | [] => none
  | c :: rest =>
    if c = a ∧ rest.headD ' ' = b ∧ rest ≠ [] then some ([], rest.tail)
    else
      match splitFirst2 a b rest with
      | some (pre, post) => some (c :: pre, post)
      | none => none

/-- Title pattern 1, regex `^\d+\.\s*\*\*Title\*\*:?\s*(.*)` with IGNORECASE:
numbered line with a bold `Title` label; the group is the rest of the line
after the optional colon and whitespace. -/
def titlePat1 (l : List Char) : Option (List Char) := do
  let r ← matchDigits l
  let r ← expectStr ['.'] r
  let r := r.dropWhile isPyWs
  let r ← expectStr ['*', '*'] r
  let r ← expectCI ['T', 'i', 't', 'l', 'e'] r
  let r ← expectStr ['*', '*'] r
  let r := optChar ':' r
  some (r.dropWhile isPyWs)

/-- Title pattern 2, regex `^\d+\.\s*\*\*(.*?)\*\*`: the group is the text
between the first pair of double asterisks. -/
def titlePat2 (l : List Char) : Option (List Char) := do
  let r ← matchDigits l
  let r ← expectStr ['.'] r
  let r := r.dropWhile isPyWs
  let r ← expectStr ['*', '*'] r
  let (pre, _) ← splitFirst2 '*' '*' r
  some pre

/-- Title pattern 3, regex `^\d+\.\s*__(.*?)__`. -/
def titlePat3 (l : List Char) : Option (List Char) := do
  let r ← matchDigits l
  let r ← expectStr ['.'] r
  let r := r.dropWhile isPyWs
  let r ← expectStr ['_', '_'] r
  let (pre, _) ← splitFirst2 '_' '_' r
  some pre

/-- Split `l` at the first occurrence of the single character `a`
(the lazy group of `\*(.*?)\*`). -/
def splitFirst1 (a : Char) : List Char → Option (List Char × List Char)
  | [] => none
  | c :: rest =>
    if c = a then some ([], rest)
    else
      match splitFirst1 a rest with
      | some (pre, post) => some (c :: pre, post)
      | none => none

/-- Title pattern 4, regex `^\d+\.\s*\*(.*?)\*`. -/
def titlePat4 (l : List Char) : Option (List Char) := do
  let r ← matchDigits l
  let r ← expectStr ['.'] r
  let r := r.dropWhile isPyWs
  let r ← expectStr ['*'] r
  let (pre, _) ← splitFirst1 '*' r
  some pre

/-- Title pattern 5, regex `^\d+\.\s*(.*?)$` (catch-all numbered line):
the group is the rest of the line after the greedy `\s*`. -/
def titlePat5 (l : List Char) : Option (List Char) := do
  let r ← matchDigits l
  let r ← expectStr ['.'] r
  some (r.dropWhile isPyWs)

/-- Title pattern 6, regex `^Title:?[ \t]*(.+)` with IGNORECASE.  The group
needs at least one character, so the engine backtracks: first it gives back
space/tab characters one by one, then it gives back the optional colon.
With the colon consumed and `r` the rest, the group is `r` minus its
leading space/tab characters, except that when that would leave nothing the
last whitespace character is kept; if the rest after the colon is empty the
colon itself is given back and becomes part of the group. -/
def titlePat6 (l : List Char) : Option (List Char) := do
  let r ← expectCI ['T', 'i', 't', 'l', 'e'] l
  let noColon : Option (List Char) :=
    if r.isEmpty then none
    else some (r.drop (min (r.takeWhile isSpaceTab).length (r.length - 1)))
  match r with
  | ':' :: r1 =>
    if r1.isEmpty then noColon
    else some (r1.drop (min (r1.takeWhile isSpaceTab).length (r1.length - 1)))
  | _ => noColon

/-- The ordered title-pattern dispatch of `parse_paper_data` (first match
wins); returns the captured group of the first matching pattern. -/
def titleMatch (l : List Char) : Option (List Char) :=
  (titlePat1 l).orElse fun _ => (titlePat2 l).orElse fun _ =>
  (titlePat3 l).orElse fun _ => (titlePat4 l).orElse fun _ =>
  (titlePat5 l).orElse fun _ => titlePat6 l

/-- Suffix check of the markdown-link pattern after the `](`: regex
`[^\)]+\)` needs at least one character that is not a closing parenthesis,
then a closing parenthesis. -/
def mdSuffixOk (rest : List Char) : Bool :=
  !(rest.takeWhile (· ≠ ')')).isEmpty && !(rest.dropWhile (· ≠ ')')).isEmpty

/-- Scan for the lazy group of `\[(.*?)\]\([^\)]+\)`: try each occurrence of
the two-character sequence close-bracket open-paren from the left; the
first one whose suffix passes `mdSuffixOk` ends the group (the regex engine
grows the lazy group past occurrences whose suffix fails). -/
def mdScan : List Char → Option (List Char)
  | [] => none
  | c :: rest =>
    (if c = ']' then
      match rest with
      | '(' :: r2 => if mdSuffixOk r2 then some [] else none
      | _ => none
    else none).orElse fun _ =>
      (mdScan rest).map (fun pre => c :: pre)

/-- Model of `extract_markdown_link_text` (app.py lines 91-94): when `s`
matches `\[(.*?)\]\([^\)]+\)` at its start, return the stripped group,
else return `s` stripped. -/
def extract_markdown_link_text (s : List Char) : List Char :=
  match s with
  | '[' :: rest =>
    match mdScan rest with
    | some pre => pyStrip pre
    | none => pyStrip s
  | _ => pyStrip s

/-- Tail of the authors pattern `Authors?:?\s*(.*)` after the literal
`Author`: optional `s` (case-insensitive), optional colon, whitespace;
the group is the rest of the line. -/
def authorsTail (r : List Char) : List Char :=
  let r := match r with
    | c :: r1 => if c.toLower = 's' then r1 else c :: r1
    | [] => []
  let r := optChar ':' r
  r.dropWhile isPyWs

/-- Model of `re.search(r'Authors?:?\s*(.*)', line, re.IGNORECASE)`:
find the leftmost case-insensitive occurrence of `author`; the rest of the
pattern always succeeds, so the group is determined by `authorsTail`. -/
def authorsSearch : List Char → Option (List Char)
  | [] => none
  | l@(_ :: rest) =>
    match expectCI ['a', 'u', 't', 'h', 'o', 'r'] l with
    | some r => some (authorsTail r)
    | none => authorsSearch rest

/-- Date part `[A-Za-z]+ \d{1,2}, \d{4}` of the published pattern,
returning the captured date text.  `\d{1,2}` is greedy: when two digits
are available the comma must follow both; giving one digit back cannot
succeed because the second digit is not a comma. -/
def matchDate (l : List Char) : Option (List Char) :=
  let letters := l.takeWhile isAlphaC
  if letters.isEmpty then none
  else
    match l.dropWhile isAlphaC with
    | ' ' :: r2 =>
      let step : Option (List Char × List Char) :=
        match r2 with
        | a :: b :: r3 =>
          if isDigitC a ∧ isDigitC b then
            (if r3.headD ' ' = ',' then some ([a, b], r3) else none)
          else if isDigitC a ∧ b = ',' then some ([a], b :: r3)
          else none
        | [_] => none
        | [] => none
      match step with
      | some (ds, r3) =>
        match r3 with
        | ',' :: ' ' :: r4 =>
          let year := r4.take 4
          if year.length = 4 ∧ year.all isDigitC then
            some (letters ++ ' ' :: ds ++ ',' :: ' ' :: year)
          else none
        | _ => none
      | none => none
    | _ => none

/-- Model of `re.search(r'Published:?\s*([A-Za-z]+ \d{1,2}, \d{4})', line)`
(case-sensitive): leftmost position where the whole pattern matches. -/
def publishedSearch : List Char → Option (List Char)
  | [] => none
  | l@(_ :: rest) =>
    (match expectStr ['P', 'u', 'b', 'l', 'i', 's', 'h', 'e', 'd'] l with
      | some r => matchDate ((optChar ':' r).dropWhile isPyWs)
      | none => none).orElse fun _ => publishedSearch rest

/-- Tail of the summary pattern after the keyword: optional colon,
whitespace, group 2 is the rest of the line. -/
def summaryTail (r : List Char) : List Char :=
  (optChar ':' r).dropWhile isPyWs

/-- Model of `re.search(r'(Summary|Abstract):?\s*(.*)', line, re.IGNORECASE)`:
leftmost case-insensitive occurrence of `summary` or `abstract` (tried in
that order at each position); returns group 2. -/
def summarySearch : List Char → Option (List Char)
  | [] => none
  | l@(_ :: rest) =>
    match expectCI ['s', 'u', 'm', 'm', 'a', 'r', 'y'] l with
    | some r => some (summaryTail r)
    | none =>
      match expectCI ['a', 'b', 's', 't', 'r', 'a', 'c', 't'] l with
      | some r => some (summaryTail r)
      | none => summarySearch rest

/-- URL pattern tail at a fixed position: `https?://arxiv\.org/` then one
or more URL characters (greedy); returns the full matched substring. -/
def urlAt (l : List Char) : Option (List Char) := do
  let r ← expectStr ['h', 't', 't', 'p'] l
  let (sPart, r) ←
    match r with
    | 's' :: r1 =>
      match expectStr [':', '/', '/', 'a', 'r', 'x', 'i', 'v', '.', 'o', 'r', 'g', '/'] r1 with
      | some r2 => some (['s'], r2)
      | none =>
        (expectStr [':', '/', '/', 'a', 'r', 'x', 'i', 'v', '.', 'o', 'r', 'g', '/'] ('s' :: r1)).map
          (fun r2 => (([] : List Char), r2))
    | _ =>
      (expectStr [':', '/', '/', 'a', 'r', 'x', 'i', 'v', '.', 'o', 'r', 'g', '/'] r).map
        (fun r2 => (([] : List Char), r2))
  let path := r.takeWhile isUrlC
  if path.isEmpty then none
  else
    some (['h', 't', 't', 'p'] ++ sPart ++
      [':', '/', '/', 'a', 'r', 'x', 'i', 'v', '.', 'o', 'r', 'g', '/'] ++ path)

/-- Model of the URL search (regex `https?`, then `://arxiv.org/` with an
escaped dot, then one or more characters from the class of word, hyphen,
slash, dot): leftmost position where the whole URL pattern matches. -/
def urlSearch : List Char → Option (List Char)
  | [] => none
  | l@(_ :: rest) => (urlAt l).orElse fun _ => urlSearch rest

/-- A paper dict of `parse_paper_data`.  The code only ever uses these six
keys; a field is `none` when the key is absent from the dict (the initial
`current_paper = {}` has every field `none`) and `some v` when the key is
present with value `v`.  Field order follows the dict literal at
app.py lines 111-118. -/
structure Paper where
  title : Option String
  categories : Option String
  url : Option String
  summary : Option String
  authors : Option String
  published : Option String
deriving DecidableEq, Repr

/-- The initial `current_paper = {}`. -/
def emptyPaper : Paper := ⟨none, none, none, none, none, none⟩

/-- Python truthiness of the paper dict (`if current_paper:`): a dict is
truthy when it has at least one key. -/
def paperTruthy (p : Paper) : Bool :=
  p.title.isSome || p.categories.isSome || p.url.isSome ||
  p.summary.isSome || p.authors.isSome || p.published.isSome

/-- Sentinel title used when no title text could be recovered. -/
def unknownTitle : String := "Unknown Title"

/-- Field-value cleanup `val.strip().lstrip(':').lstrip('*').strip()`
applied to the authors, published and summary captures. -/
def cleanVal (g : List Char) : String :=
  String.mk (pyStrip (((pyStrip g).dropWhile (· == ':')).dropWhile (· == '*')))

/-- One iteration of the line loop of `parse_paper_data` (app.py lines
96-149) on the state `(papers, current_paper)`: strip the line, skip it if
blank, otherwise try the six title patterns in order (closing the current
dict if truthy and opening a fresh one), otherwise try the authors,
published, summary and URL searches in order (the `current_paper is not
None` guards in the source never fail, because `current_paper` starts as
`{}` and is never set to `None`). -/
def processLine (st : List Paper × Paper) (rawLine : List Char) : List Paper × Paper :=
  if (pyStrip rawLine).isEmpty then st
  else
    match titleMatch (pyStrip rawLine) with
    | some g =>
      ((if paperTruthy st.2 then st.1 ++ [st.2] else st.1),
        { title := some (if (extract_markdown_link_text (pyStrip g)).isEmpty then unknownTitle
            else String.mk (extract_markdown_link_text (pyStrip g))),
          categories := some (""), url := some (""), summary := some (""),
          authors := some (""), published := some ("") })
    | none =>
      match authorsSearch (pyStrip rawLine) with
      | some g => (st.1, { st.2 with authors := some (cleanVal g) })
      | none =>
        match publishedSearch (pyStrip rawLine) with
        | some g => (st.1, { st.2 with published := some (cleanVal g) })
        | none =>
          match summarySearch (pyStrip rawLine) with
          | some g => (st.1, { st.2 with summary := some (cleanVal g) })
          | none =>
            match urlSearch (pyStrip rawLine) with
            | some g => (st.1, { st.2 with url := some (String.mk g) })
            | none => st

/-- Model of `parse_paper_data` (app.py lines 75-155): run the line loop
over `text.split('\n')` and append the final `current_paper` if truthy. -/
def parse_paper_data (text : String) : List Paper :=
  let st := (splitLines text.data).foldl processLine ([], emptyPaper)
  if paperTruthy st.2 then st.1 ++ [st.2] else st.1

/-- Recognizer of the bare numbered-list pattern `^\d+\. ` used by
`is_paper_list_response`: one or more digits, a dot, a space. -/
def numberedLine (l : List Char) : Bool :=
  !(l.takeWhile isDigitC).isEmpty && ['.', ' '].isPrefixOf (l.dropWhile isDigitC)

/-- Model of `is_paper_list_response` (app.py lines 234-242): true when the
parser yields at least 2 papers, else when at least 2 lines of the
stripped text match the numbered-list pattern. -/
def is_paper_list_response (text : String) : Bool :=
  if 2 ≤ (parse_paper_data text).length then true
  else decide (2 ≤ ((splitLines (pyStrip text.data)).filter numberedLine).length)

/-- One row of the dataframe built by `create_papers_dataframe`. -/
structure Row where
  Title : String
  URL : String
deriving DecidableEq, Repr

/-- Title cell of `create_papers_dataframe` (app.py lines 221-227):
`paper.get('title', 'Unknown')`; when the title is of markdown-link shape
(starts with an open bracket, contains the close-bracket open-paren pair,
ends with a close paren) slice out the text between the bracket and that
pair; when the result strips and lowercases to the literal word `title`,
replace it with the sentinel. -/
def rowTitle (p : Paper) : String :=
  let title := (p.title.getD ("Unknown")).data
  let title :=
    if title.headD ' ' = '[' ∧ containsSub [']', '('] title ∧ title.getLastD ' ' = ')' then
      match splitFirst2 ']' '(' title with
      | some (pre, _) => pre.drop 1
      | none => title
    else title
  if (pyStrip title).map Char.toLower = ['t', 'i', 't', 'l', 'e'] then ("Unknown Title")
  else String.mk title

/-- Model of `create_papers_dataframe` (app.py lines 214-232): `none` for
an empty paper list (the Python function returns `None`), otherwise one
row per paper with the processed title and `paper.get('url', 'N/A')`. -/
def create_papers_dataframe (papers : List Paper) : Option (List Row) :=
  if papers.isEmpty then none
  else some (papers.map fun p => { Title := rowTitle p, URL := p.url.getD ("N/A") })

/-- Guard of the Categories rendering branch of `format_paper_display`
(app.py line 201): `if paper.get('categories'):` — `dict.get` returns
`None` for an absent key, and both `None` and the empty string are falsy. -/
def categoriesBranchTaken (p : Paper) : Bool :=
  match p.categories with
  | some s => !s.isEmpty
  | none => false

/-- The stray bullet glyph that appears in the source file (three
characters, the UTF-8 mojibake of a bullet point). -/
def bulletGlyph : List Char := [Char.ofNat 0xE2, Char.ofNat 0x20AC, Char.ofNat 0xA2]

/-- Line rewriting of `format_structured_response` (app.py lines 54-69):
strip the line; keep blank lines blank; a line wrapped in double asterisks
becomes a level-3 heading; a line starting with a single (not double)
asterisk, or with the first character of the bullet glyph, becomes a
hyphen bullet with its first character dropped; other lines pass through
stripped. -/
def fmtLine (rawLine : List Char) : List Char :=
  if (pyStrip rawLine).isEmpty then []
  else if ['*', '*'].isPrefixOf (pyStrip rawLine) && ['*', '*'].isSuffixOf (pyStrip rawLine) then
    '#' :: '#' :: '#' :: ' ' :: pyStrip rawLine
  else if ['*'].isPrefixOf (pyStrip rawLine) && !(['*', '*'].isPrefixOf (pyStrip rawLine)) then
    '-' :: ' ' :: pyStrip ((pyStrip rawLine).drop 1)
  else if bulletGlyph.isPrefixOf (pyStrip rawLine) then
    '-' :: ' ' :: pyStrip ((pyStrip rawLine).drop 1)
  else pyStrip rawLine

/-- Model of `format_structured_response` (app.py lines 47-73): when the
text contains a double asterisk and (a single asterisk or the bullet
glyph), rewrite every line with `fmtLine` and rejoin; otherwise return the
text unchanged. -/
def format_structured_response (text : String) : String :=
  if containsSub ['*', '*'] text.data &&
      (containsSub ['*'] text.data || containsSub bulletGlyph text.data) then
    String.mk (joinLines ((splitLines text.data).map fmtLine))
  else text

/-- The structural-marker set checked by `extract_structured_content`
(app.py line 36). -/
def structMarkers : List (List Char) :=
  [['*', '*'], ['*'], bulletGlyph, ['-', ' '],
   ('K' :: 'e' :: 'y' :: ' ' :: 'f' :: 'i' :: 'n' :: 'd' :: 'i' :: 'n' :: 'g' :: 's' :: ':' :: []),
   ('A' :: 'b' :: 's' :: 't' :: 'r' :: 'a' :: 'c' :: 't' :: ':' :: []),
   ('S' :: 'u' :: 'm' :: 'm' :: 'a' :: 'r' :: 'y' :: ':' :: [])]

/-- Test `any(marker in text for marker in [...])` of app.py line 36. -/
def anyStructMarker (t : List Char) : Bool :=
  structMarkers.any (fun m => containsSub m t)

/-- The Text Cleaner: the normalization applied to the extracted text
inside `extract_structured_content` (app.py lines 33-39): replace the
two-character escape sequences backslash-n and backslash-quote by a real
newline and quote, then reformat via `format_structured_response` when any
structural marker is present. -/
def clean (text : String) : String :=
  if anyStructMarker (replace2 '\\' '"' ['"'] (replace2 '\\' 'n' ['\n'] text.data)) then
    format_structured_response (String.mk (replace2 '\\' '"' ['"'] (replace2 '\\' 'n' ['\n'] text.data)))
  else String.mk (replace2 '\\' '"' ['"'] (replace2 '\\' 'n' ['\n'] text.data))

/-- Canonical markdown form, the precondition of the idempotence property:
the text contains neither of the two escape sequences the cleaner
replaces, and every line is already fixed by the line rewriting (already
bulleted, already headed, already stripped). -/
def Canonical (text : String) : Prop :=
  containsSub ['\\', 'n'] text.data = false ∧
  containsSub ['\\', '"'] text.data = false ∧
  ∀ m ∈ splitLines text.data, fmtLine m = m

/-- Count of lines of `text` whose stripped form matches one of the six
title patterns — exactly the lines on which `parse_paper_data` opens a
new record. -/
def countTitleLines (text : String) : Nat :=
  ((splitLines text.data).filter (fun l => (titleMatch (pyStrip l)).isSome)).length

/-- Apply `f` to the last element of a list (helper for reasoning about
`splitLines` of a reversed text). -/
def mapLast (f : List Char → List Char) : List (List Char) → List (List Char)
  | [] => []
  | [x] => [f x]
  | x :: y :: xs => x :: mapLast f (y :: xs)

/-! Helper lemmas about the embedded string operations. -/

theorem getD_map_general {α β : Type} (f : α → β) (da : α) (db : β) (hf : f da = db) :
    ∀ (l : List α) (i : Nat), (l.map f).getD i db = f (l.getD i da)
  | [], _ => by simp [List.getD, hf]
  | _ :: _, 0 => rfl
  | _ :: xs, i + 1 => getD_map_general f da db hf xs i

theorem sl_ne_nil (t : List Char) : splitLines t ≠ [] := by
  match t with
  | [] => simp [splitLines]
  | c :: rest =>
    unfold splitLines
    split
    · simp
    · match h : splitLines rest with
      | [] => exact absurd h (sl_ne_nil rest)
      | m :: ms => simp

theorem sl_cons_nl (rest : List Char) : splitLines ('\n' :: rest) = [] :: splitLines rest := rfl

theorem sl_cons_of_ne (c : Char) (rest : List Char) (hc : ¬ c = '\n') (m : List Char)
    (ms : List (List Char)) (h : splitLines rest = m :: ms) :
    splitLines (c :: rest) = (c :: m) :: ms := by
  show (if c = '\n' then [] :: splitLines rest
    else match splitLines rest with
      | [] => [[c]]
      | m :: ms => (c :: m) :: ms) = (c :: m) :: ms
  rw [if_neg hc, h]

theorem mem_sl_no_nl (t : List Char) (m : List Char) (hm : m ∈ splitLines t) : '\n' ∉ m := by
  induction t generalizing m with
  | nil =>
    simp only [splitLines, List.mem_singleton] at hm
    subst hm; simp
  | cons c rest ih =>
    rcases hsl : splitLines rest with _ | ⟨m0, ms⟩
    · exact absurd hsl (sl_ne_nil rest)
    · by_cases hc : c = '\n'
      · subst hc
        rw [sl_cons_nl rest] at hm
        rcases List.mem_cons.mp hm with h | h
        · subst h; simp
        · exact ih m h
      · rw [sl_cons_of_ne c rest hc m0 ms hsl] at hm
        rcases List.mem_cons.mp hm with h | h
        · subst h
          intro hmem
          rcases List.mem_cons.mp hmem with h | h
          · exact hc h.symm
          · exact ih m0 (by rw [hsl]; exact List.mem_cons_self _ _) h
        · exact ih m (by rw [hsl]; exact List.mem_cons_of_mem _ h)

theorem sl_of_no_nl (m : List Char) (hm : '\n' ∉ m) : splitLines m = [m] := by
  induction m with
  | nil => rfl
  | cons c rest ih =>
    have hc : ¬ c = '\n' := fun h => hm (h ▸ List.mem_cons_self _ _)
    have hr := ih (fun h => hm (List.mem_cons_of_mem _ h))
    exact sl_cons_of_ne c rest hc rest [] hr

theorem sl_append_nl (x R : List Char) (hx : '\n' ∉ x) :
    splitLines (x ++ '\n' :: R) = x :: splitLines R := by
  induction x with
  | nil => exact sl_cons_nl R
  | cons c x' ih =>
    have hc : ¬ c = '\n' := fun h => hx (h ▸ List.mem_cons_self _ _)
    have hr := ih (fun h => hx (List.mem_cons_of_mem _ h))
    rw [List.cons_append]
    exact sl_cons_of_ne c _ hc x' (splitLines R) hr

theorem sl_join (ls : List (List Char)) (hne : ls ≠ []) (hnl : ∀ m ∈ ls, '\n' ∉ m) :
    splitLines (joinLines ls) = ls := by
  match ls with
  | [] => exact absurd rfl hne
  | [x] => exact sl_of_no_nl x (hnl x (List.mem_singleton_self x))
  | x :: y :: rest =>
    have h1 : joinLines (x :: y :: rest) = x ++ '\n' :: joinLines (y :: rest) := rfl
    rw [h1, sl_append_nl x _ (hnl x (List.mem_cons_self _ _)),
      sl_join (y :: rest) (by simp) (fun m hm => hnl m (List.mem_cons_of_mem _ hm))]

theorem join_sl (t : List Char) : joinLines (splitLines t) = t := by
  induction t with
  | nil => rfl
  | cons c rest ih =>
    rcases hsl : splitLines rest with _ | ⟨m, ms⟩
    · exact absurd hsl (sl_ne_nil rest)
    · rw [hsl] at ih
      by_cases hc : c = '\n'
      · subst hc
        rw [sl_cons_nl rest, hsl]
        show ([] : List Char) ++ '\n' :: joinLines (m :: ms) = '\n' :: rest
        rw [List.nil_append, ih]
      · rw [sl_cons_of_ne c rest hc m ms hsl]
        cases ms with
        | nil =>
          have h2 : m = rest := ih
          show c :: m = c :: rest
          rw [h2]
        | cons m1 ms1 =>
          have h2 : m ++ '\n' :: joinLines (m1 :: ms1) = rest := ih
          show (c :: m) ++ '\n' :: joinLines (m1 :: ms1) = c :: rest
          rw [List.cons_append, h2]

theorem mapLast_cons (f : List Char → List Char) (x : List Char) (xs : List (List Char))
    (h : xs ≠ []) : mapLast f (x :: xs) = x :: mapLast f xs := by
  cases xs with
  | nil => exact absurd rfl h
  | cons y ys => rfl

theorem mapLast_concat (f : List Char → List Char) (xs : List (List Char)) (x : List Char) :
    mapLast f (xs ++ [x]) = xs ++ [f x] := by
  induction xs with
  | nil => rfl
  | cons y ys ih =>
    rw [List.cons_append, mapLast_cons f y (ys ++ [x]) (by simp), ih, List.cons_append]

theorem sl_concat (t : List Char) (c : Char) :
    splitLines (t ++ [c]) =
      if c = '\n' then splitLines t ++ [[]] else mapLast (· ++ [c]) (splitLines t) := by
  induction t with
  | nil =>
    by_cases hc : c = '\n'
    · subst hc; rw [if_pos rfl]; rfl
    · rw [if_neg hc, List.nil_append, sl_cons_of_ne c [] hc [] [] rfl]; rfl
  | cons d t' ih =>
    by_cases hd : d = '\n'
    · subst hd
      rw [List.cons_append, sl_cons_nl, sl_cons_nl, ih]
      by_cases hc : c = '\n'
      · rw [if_pos hc, if_pos hc, List.cons_append]
      · rw [if_neg hc, if_neg hc, mapLast_cons _ _ _ (sl_ne_nil t')]
    · rcases hsl : splitLines t' with _ | ⟨m, ms⟩
      · exact absurd hsl (sl_ne_nil t')
      · by_cases hc : c = '\n'
        · rw [if_pos hc]
          have h1 : splitLines (t' ++ [c]) = m :: (ms ++ [[]]) := by
            rw [ih, if_pos hc, hsl, List.cons_append]
          rw [List.cons_append, sl_cons_of_ne d _ hd _ _ h1,
            sl_cons_of_ne d t' hd m ms hsl, List.cons_append]
        · rw [if_neg hc]
          cases ms with
          | nil =>
            have h1 : splitLines (t' ++ [c]) = [m ++ [c]] := by
              rw [ih, if_neg hc, hsl]; rfl
            rw [List.cons_append, sl_cons_of_ne d _ hd _ _ h1,
              sl_cons_of_ne d t' hd m [] hsl]
            show [(d :: m) ++ [c]] = [(d :: m) ++ [c]]
            rfl
          | cons m1 ms1 =>
            have h1 : splitLines (t' ++ [c]) = m :: mapLast (· ++ [c]) (m1 :: ms1) := by
              rw [ih, if_neg hc, hsl]; rfl
            rw [List.cons_append, sl_cons_of_ne d _ hd _ _ h1,
              sl_cons_of_ne d t' hd m (m1 :: ms1) hsl]
            rfl

theorem sl_reverse (t : List Char) :
    splitLines t.reverse = ((splitLines t).map List.reverse).reverse := by
  induction t with
  | nil => rfl
  | cons c t' ih =>
    rw [List.reverse_cons, sl_concat, ih]
    by_cases hc : c = '\n'
    · subst hc
      rw [if_pos rfl, sl_cons_nl, List.map_cons, List.reverse_cons]
      rfl
    · rw [if_neg hc]
      rcases hsl : splitLines t' with _ | ⟨m, ms⟩
      · exact absurd hsl (sl_ne_nil t')
      · rw [sl_cons_of_ne c t' hc m ms hsl]
        simp only [List.map_cons, List.reverse_cons, mapLast_concat]

theorem pyStrip_cons_ws (c : Char) (m : List Char) (h : isPyWs c = true) :
    pyStrip (c :: m) = pyStrip m := by
  unfold pyStrip lstripWs
  rw [List.dropWhile_cons, if_pos h]

theorem dropWhile_single_ws (c : Char) (h : isPyWs c = true) :
    List.dropWhile isPyWs [c] = [] := by
  rw [List.dropWhile_cons, if_pos h]; rfl

theorem pyStrip_concat_ws (c : Char) (m : List Char) (h : isPyWs c = true) :
    pyStrip (m ++ [c]) = pyStrip m := by
  unfold pyStrip lstripWs
  rw [List.dropWhile_append]
  by_cases he : (List.dropWhile isPyWs m).isEmpty = true
  · rw [if_pos he, dropWhile_single_ws c h]
    have hm : List.dropWhile isPyWs m = [] := by
      cases hd : List.dropWhile isPyWs m with
      | nil => rfl
      | cons a as => rw [hd] at he; exact absurd he (by simp)
    rw [hm]
  · rw [if_neg he, List.reverse_append, List.reverse_singleton, List.singleton_append,
      List.dropWhile_cons, if_pos h]

/-- Counting lines whose predicate ignores surrounding whitespace is not
changed by left-stripping the whole text: left-stripping only deletes
leading blank-ish lines (on which the predicate is false) and whitespace
at the head of the first surviving line. -/
theorem countP_sl_lstrip (R : List Char → Bool) (hR0 : R [] = false)
    (hRc : ∀ c m, isPyWs c = true → R (c :: m) = R m) (t : List Char) :
    List.countP R (splitLines (t.dropWhile isPyWs)) = List.countP R (splitLines t) := by
  induction t with
  | nil => rfl
  | cons c t' ih =>
    by_cases hw : isPyWs c = true
    · rw [List.dropWhile_cons, if_pos hw, ih]
      by_cases hc : c = '\n'
      · subst hc
        rw [sl_cons_nl, List.countP_cons, hR0]
        simp
      · rcases hsl : splitLines t' with _ | ⟨m, ms⟩
        · exact absurd hsl (sl_ne_nil t')
        · rw [sl_cons_of_ne c t' hc m ms hsl, List.countP_cons, List.countP_cons,
            hRc c m hw]
    · rw [List.dropWhile_cons, if_neg hw]

/-- Counting lines whose predicate ignores surrounding whitespace is not
changed by stripping the whole text. -/
theorem countP_sl_strip (R : List Char → Bool) (hR0 : R [] = false)
    (hRc : ∀ c m, isPyWs c = true → R (c :: m) = R m)
    (hRcat : ∀ c m, isPyWs c = true → R (m ++ [c]) = R m) (t : List Char) :
    List.countP R (splitLines (pyStrip t)) = List.countP R (splitLines t) := by
  have hrev : ∀ (S : List Char → Bool) (u : List Char),
      List.countP S (splitLines u.reverse) =
        List.countP (fun x => S x.reverse) (splitLines u) := by
    intro S u
    rw [sl_reverse, List.countP_reverse, List.countP_map]
    rfl
  have hR0' : (fun x => R (List.reverse x)) [] = false := hR0
  have hRc' : ∀ c m, isPyWs c = true →
      (fun x => R (List.reverse x)) (c :: m) = (fun x => R (List.reverse x)) m := by
    intro c m hc
    show R (List.reverse (c :: m)) = R m.reverse
    rw [List.reverse_cons, hRcat c m.reverse hc]
  show List.countP R (splitLines (((t.dropWhile isPyWs).reverse.dropWhile isPyWs).reverse)) = _
  rw [hrev R, countP_sl_lstrip (fun x => R (List.reverse x)) hR0' hRc',
    hrev (fun x => R (List.reverse x))]
  simp only [List.reverse_reverse]
  exact countP_sl_lstrip R hR0 hRc t

theorem star_of_double (t : List Char) (h : containsSub ['*', '*'] t = true) :
    containsSub ['*'] t = true := by
  induction t with
  | nil => exact absurd h (by decide)
  | cons c rest ih =>
    simp only [containsSub, List.isPrefixOf, Bool.or_eq_true, Bool.and_eq_true,
      beq_iff_eq] at h ⊢
    rcases h with ⟨hc, _⟩ | h
    · exact Or.inl ⟨hc, trivial⟩
    · exact Or.inr (ih h)

theorem mem_pyStrip (a : Char) (m : List Char) (h : a ∈ pyStrip m) : a ∈ m := by
  unfold pyStrip lstripWs at h
  rw [List.mem_reverse] at h
  have h1 := (List.dropWhile_sublist (l := (m.dropWhile isPyWs).reverse) (p := isPyWs)).mem h
  rw [List.mem_reverse] at h1
  exact (List.dropWhile_sublist (l := m) (p := isPyWs)).mem h1

theorem fmtLine_no_nl (m : List Char) (hm : '\n' ∉ m) : '\n' ∉ fmtLine m := by
  have hs : '\n' ∉ pyStrip m := fun h => hm (mem_pyStrip _ _ h)
  have hd : '\n' ∉ pyStrip ((pyStrip m).drop 1) := fun h =>
    hs ((List.drop_sublist 1 (pyStrip m)).mem (mem_pyStrip _ _ h))
  unfold fmtLine
  split
  · simp
  · split
    · intro h
      rcases List.mem_cons.mp h with h | h
      · exact absurd h.symm (by decide)
      · rcases List.mem_cons.mp h with h | h
        · exact absurd h.symm (by decide)
        · rcases List.mem_cons.mp h with h | h
          · exact absurd h.symm (by decide)
          · rcases List.mem_cons.mp h with h | h
            · exact absurd h.symm (by decide)
            · exact hs h
    · split
      · intro h
        rcases List.mem_cons.mp h with h | h
        · exact absurd h.symm (by decide)
        · rcases List.mem_cons.mp h with h | h
          · exact absurd h.symm (by decide)
          · exact hd h
      · split
        · intro h
          rcases List.mem_cons.mp h with h | h
          · exact absurd h.symm (by decide)
          · rcases List.mem_cons.mp h with h | h
            · exact absurd h.symm (by decide)
            · exact hd h
        · exact hs

theorem fmtLine_bullet (raw : List Char) (hp : ['*'].isPrefixOf (pyStrip raw) = true)
    (hpp : ['*', '*'].isPrefixOf (pyStrip raw) = false) :
    fmtLine raw = '-' :: ' ' :: pyStrip ((pyStrip raw).drop 1) := by
  have h0 : (pyStrip raw).isEmpty = false := by
    cases h : pyStrip raw with
    | nil => rw [h] at hp; exact absurd hp (by decide)
    | cons c r => rfl
  unfold fmtLine
  rw [if_neg (by simp [h0]), if_neg (by simp [hpp]), if_pos (by simp [hp, hpp])]

theorem fmtLine_heading (raw : List Char) (hp : ['*', '*'].isPrefixOf (pyStrip raw) = true)
    (hs : ['*', '*'].isSuffixOf (pyStrip raw) = true) :
    fmtLine raw = '#' :: '#' :: '#' :: ' ' :: pyStrip raw := by
  have h0 : (pyStrip raw).isEmpty = false := by
    cases h : pyStrip raw with
    | nil => rw [h] at hp; exact absurd hp (by decide)
    | cons c r => rfl
  unfold fmtLine
  rw [if_neg (by simp [h0]), if_pos (by simp [hp, hs])]

theorem replace2_id (a b : Char) (rep l : List Char) (h : containsSub [a, b] l = false) :
    replace2 a b rep l = l := by
  match l with
  | [] => rfl
  | [c] => rfl
  | x :: y :: r =>
    have hor : ([a, b].isPrefixOf (x :: y :: r) || containsSub [a, b] (y :: r)) = false := h
    rcases Bool.or_eq_false_iff.mp hor with ⟨h1, h2⟩
    have hxy : ¬ (x = a ∧ y = b) := by
      rintro ⟨rfl, rfl⟩
      simp [List.isPrefixOf] at h1
    unfold replace2
    rw [if_neg hxy, replace2_id a b rep (y :: r) h2]

theorem map_id_of_fixed {α : Type} (f : α → α) (l : List α) (h : ∀ m ∈ l, f m = m) :
    l.map f = l := by
  induction l with
  | nil => rfl
  | cons x xs ih =>
    rw [List.map_cons, h x (List.mem_cons_self _ _), ih (fun m hm => h m (List.mem_cons_of_mem _ hm))]

theorem digit_not_ws (c : Char) (h : isDigitC c = true) : isPyWs c = false := by
  unfold isDigitC at h
  rw [Bool.and_eq_true] at h
  rcases h with ⟨h1, -⟩
  unfold isPyWs
  have l1 := decide_eq_true_eq.mp h1
  simp only [Bool.or_eq_false_iff, beq_eq_false_iff_ne]
  refine ⟨⟨⟨⟨⟨?_, ?_⟩, ?_⟩, ?_⟩, ?_⟩, ?_⟩ <;>
    (intro he; subst he; exact absurd l1 (by decide))

theorem tw_digits (ds r : List Char) (hds : ∀ c ∈ ds, isDigitC c = true) :
    (ds ++ '.' :: r).takeWhile isDigitC = ds ∧ (ds ++ '.' :: r).dropWhile isDigitC = '.' :: r := by
  induction ds with
  | nil =>
    constructor
    · rw [List.nil_append, List.takeWhile_cons, if_neg (by decide)]
    · rw [List.nil_append, List.dropWhile_cons, if_neg (by decide)]
  | cons d ds' ih =>
    have hd := hds d (List.mem_cons_self _ _)
    obtain ⟨ih1, ih2⟩ := ih (fun c hc => hds c (List.mem_cons_of_mem _ hc))
    constructor
    · rw [List.cons_append, List.takeWhile_cons, if_pos hd, ih1]
    · rw [List.cons_append, List.dropWhile_cons, if_pos hd, ih2]

theorem orElse_isSome {α : Type} (a : Option α) (f : Unit → Option α) :
    (a.orElse f).isSome = (a.isSome || (f ()).isSome) := by
  cases a <;> rfl

theorem titleMatch_isSome_of_pat5 (l : List Char) (h : (titlePat5 l).isSome = true) :
    (titleMatch l).isSome = true := by
  unfold titleMatch
  rw [orElse_isSome, orElse_isSome, orElse_isSome, orElse_isSome, orElse_isSome, h]
  simp

theorem pat5_numbered (ds r : List Char) (hne : ds ≠ [])
    (hds : ∀ c ∈ ds, isDigitC c = true) :
    (titlePat5 (ds ++ '.' :: r)).isSome = true := by
  obtain ⟨h1, h2⟩ := tw_digits ds r hds
  unfold titlePat5 matchDigits
  rw [h1, h2]
  have : ds.isEmpty = false := by cases ds with | nil => exact absurd rfl hne | cons a as => rfl
  rw [this]
  rfl

theorem strip_numbered (ds tl : List Char) (hne : ds ≠ [])
    (hds : ∀ c ∈ ds, isDigitC c = true) :
    ∃ r, pyStrip (ds ++ '.' :: ' ' :: tl) = ds ++ '.' :: r := by
  have hlstrip : lstripWs (ds ++ '.' :: ' ' :: tl) = ds ++ '.' :: ' ' :: tl := by
    cases ds with
    | nil => exact absurd rfl hne
    | cons d ds' =>
      unfold lstripWs
      rw [List.cons_append, List.dropWhile_cons,
        if_neg (by rw [digit_not_ws d (hds d (List.mem_cons_self _ _))]; simp)]
  have hrev : (ds ++ '.' :: ' ' :: tl).reverse = (tl.reverse ++ [' ']) ++ '.' :: ds.reverse := by
    rw [List.reverse_append]
    simp
  unfold pyStrip
  rw [hlstrip, hrev, List.dropWhile_append]
  by_cases he : (List.dropWhile isPyWs (tl.reverse ++ [' '])).isEmpty = true
  · rw [if_pos he, List.dropWhile_cons, if_neg (by decide), List.reverse_cons, List.reverse_reverse]
    exact ⟨[], rfl⟩
  · rw [if_neg he, List.reverse_append, List.reverse_cons, List.reverse_reverse]
    refine ⟨(List.dropWhile isPyWs (tl.reverse ++ [' '])).reverse, ?_⟩
    simp

theorem numbered_title (l : List Char) (h : numberedLine l = true) :
    (titleMatch (pyStrip l)).isSome = true := by
  unfold numberedLine at h
  rw [Bool.and_eq_true] at h
  rcases h with ⟨h1, h2⟩
  have hne : l.takeWhile isDigitC ≠ [] := by
    intro he
    rw [he] at h1
    exact absurd h1 (by decide)
  have hds : ∀ c ∈ l.takeWhile isDigitC, isDigitC c = true := fun c hc =>
    List.mem_takeWhile_imp hc
  have hsplit : ∃ tl, l.dropWhile isDigitC = '.' :: ' ' :: tl := by
    rcases hd : l.dropWhile isDigitC with _ | ⟨c1, rest1⟩
    · rw [hd] at h2; exact absurd h2 (by decide)
    · rcases rest1 with _ | ⟨c2, rest2⟩
      · rw [hd] at h2
        simp [List.isPrefixOf] at h2
      · rw [hd] at h2
        simp only [List.isPrefixOf, Bool.and_eq_true, beq_iff_eq] at h2
        obtain ⟨hc1, hc2, _⟩ := h2
        exact ⟨rest2, by rw [← hc1, ← hc2]⟩
  obtain ⟨tl, htl⟩ := hsplit
  have hl : l = l.takeWhile isDigitC ++ '.' :: ' ' :: tl := by
    conv_lhs => rw [← List.takeWhile_append_dropWhile (p := isDigitC) (l := l)]
    rw [htl]
  obtain ⟨r, hr⟩ := strip_numbered (l.takeWhile isDigitC) tl hne hds
  rw [hl, hr]
  exact titleMatch_isSome_of_pat5 _ (pat5_numbered _ r hne hds)

/-- One parser step cannot lose papers: the measure (emitted papers plus
one for a truthy current dict) grows by at least one on a title line and
never shrinks. -/
theorem processLine_measure (st : List Paper × Paper) (l : List Char) :
    st.1.length + (if paperTruthy st.2 then 1 else 0) +
      (if (titleMatch (pyStrip l)).isSome then 1 else 0) ≤
    (processLine st l).1.length + (if paperTruthy (processLine st l).2 then 1 else 0) := by
  unfold processLine
  by_cases he : (pyStrip l).isEmpty = true
  · rw [if_pos he]
    have hnil : pyStrip l = [] := by
      cases hp : pyStrip l with
      | nil => rfl
      | cons a as => rw [hp] at he; exact absurd he (by simp)
    rw [hnil]
    have : (titleMatch []).isSome = false := by decide
    rw [this]
    simp
  · rw [if_neg he]
    cases ht : titleMatch (pyStrip l) with
    | some g =>
      simp only [Option.isSome_some, if_pos]
      have hnew : paperTruthy
          { title := some (if (extract_markdown_link_text (pyStrip g)).isEmpty then unknownTitle
              else String.mk (extract_markdown_link_text (pyStrip g))),
            categories := some (""), url := some (""), summary := some (""),
            authors := some (""), published := some ("") } = true := rfl
      rw [hnew]
      by_cases hb : paperTruthy st.2 = true
      · rw [if_pos hb, if_pos hb, List.length_append]
        simp
      · rw [if_neg hb, if_neg hb]
        simp
    | none =>
      simp only [Option.isSome_none, Bool.false_eq_true, if_false, Nat.add_zero]
      cases ha : authorsSearch (pyStrip l) with
      | some g =>
        have : paperTruthy { st.2 with authors := some (cleanVal g) } = true := by
          unfold paperTruthy
          simp
        rw [this, if_pos rfl]
        by_cases hb : paperTruthy st.2 = true
        · rw [if_pos hb]
        · rw [if_neg hb]; simp
      | none =>
        cases hp : publishedSearch (pyStrip l) with
        | some g =>
          have : paperTruthy { st.2 with published := some (cleanVal g) } = true := by
            unfold paperTruthy
            simp
          rw [this, if_pos rfl]
          by_cases hb : paperTruthy st.2 = true
          · rw [if_pos hb]
          · rw [if_neg hb]; simp
        | none =>
          cases hs : summarySearch (pyStrip l) with
          | some g =>
            have : paperTruthy { st.2 with summary := some (cleanVal g) } = true := by
              unfold paperTruthy
              simp
            rw [this, if_pos rfl]
            by_cases hb : paperTruthy st.2 = true
            · rw [if_pos hb]
            · rw [if_neg hb]; simp
          | none =>
            cases hu : urlSearch (pyStrip l) with
            | some g =>
              have : paperTruthy { st.2 with url := some (String.mk g) } = true := by
                unfold paperTruthy
                simp
              rw [this, if_pos rfl]
              by_cases hb : paperTruthy st.2 = true
              · rw [if_pos hb]
              · rw [if_neg hb]; simp
            | none => exact Nat.le_refl _

/-- The parser emits at least one record per title-matching line. -/
theorem foldl_measure (lines : List (List Char)) : ∀ (st : List Paper × Paper),
    st.1.length + (if paperTruthy st.2 then 1 else 0) +
      List.countP (fun l => (titleMatch (pyStrip l)).isSome) lines ≤
    (lines.foldl processLine st).1.length +
      (if paperTruthy (lines.foldl processLine st).2 then 1 else 0) := by
  induction lines with
  | nil => intro st; simp
  | cons l ls ih =>
    intro st
    rw [List.foldl_cons, List.countP_cons]
    have h1 := processLine_measure st l
    have h2 := ih (processLine st l)
    omega

theorem countTitle_le_parse (x : String) :
    List.countP (fun l => (titleMatch (pyStrip l)).isSome) (splitLines x.data) ≤
      (parse_paper_data x).length := by
  have h := foldl_measure (splitLines x.data) ([], emptyPaper)
  have h0 : paperTruthy emptyPaper = false := rfl
  rw [h0] at h
  unfold parse_paper_data
  by_cases hb : paperTruthy ((splitLines x.data).foldl processLine ([], emptyPaper)).2 = true
  · rw [if_pos hb]
    rw [hb] at h
    rw [List.length_append]
    simpa using h
  · rw [if_neg hb]
    rw [Bool.not_eq_true] at hb
    rw [hb] at h
    simpa using h

/-! Theorems about the claims. -/

/-- C1: the claim says a non-blank line that matches no title pattern is
silently dropped when no record is open.  The code refutes this: on the
one-line input `Authors: J. Doe` no title pattern matches and no record
has been opened, yet `parse_paper_data` emits one record carrying the
line's content in its authors field — `current_paper` starts as the truthy
guard target `{}` rather than `None`, so the `is not None` guards never
fail and the empty dict is mutated and appended. -/
theorem c1_unmatched_line_not_dropped :
    titleMatch (pyStrip ("Authors: J. Doe").data) = none ∧
    parse_paper_data ("Authors: J. Doe") =
      [⟨none, none, none, none, some ("J. Doe"), none⟩] := by
  decide

/-- C2: the claim says a text with zero title-matching lines yields zero
records.  The code refutes this: `Authors: A. Smith` has zero
title-matching lines but `parse_paper_data` returns one (headless)
record. -/
theorem c2_zero_title_lines_one_record :
    countTitleLines ("Authors: A. Smith") = 0 ∧
    (parse_paper_data ("Authors: A. Smith")).length = 1 := by
  decide

/-- C4: the claim says every record's title field is a non-empty string
(captured text or the sentinel).  The code refutes this: the headless
record produced from `Summary: overview only` has no title entry at all
(the dict lacks the key, modelled as `none`). -/
theorem c4_headless_record_has_no_title :
    parse_paper_data ("Summary: overview only") =
      [⟨none, none, none, some ("overview only"), none, none⟩] := by
  decide

/-- C5 (amended): only a text containing the double-asterisk marker is
reformatted (the inner gate of `format_structured_response`; other
structural markers alone leave the text unchanged).  For such a text the
output has one line per input line, a line whose stripped form starts with
a single (not double) asterisk becomes a hyphen-bullet line with the
asterisk stripped, and a line whose stripped form is wrapped in double
asterisks becomes a level-3 heading line. -/
theorem c5_reformat (text : String)
    (hss : containsSub ['*', '*'] text.data = true) :
    (splitLines (format_structured_response text).data).length = (splitLines text.data).length ∧
    ∀ i : Nat,
      (['*'].isPrefixOf (pyStrip ((splitLines text.data).getD i [])) = true ∧
        ['*', '*'].isPrefixOf (pyStrip ((splitLines text.data).getD i [])) = false →
        (splitLines (format_structured_response text).data).getD i [] =
          '-' :: ' ' :: pyStrip ((pyStrip ((splitLines text.data).getD i [])).drop 1)) ∧
      (['*', '*'].isPrefixOf (pyStrip ((splitLines text.data).getD i [])) = true ∧
        ['*', '*'].isSuffixOf (pyStrip ((splitLines text.data).getD i [])) = true →
        (splitLines (format_structured_response text).data).getD i [] =
          '#' :: '#' :: '#' :: ' ' :: pyStrip ((splitLines text.data).getD i [])) := by
  have hgate : (containsSub ['*', '*'] text.data &&
      (containsSub ['*'] text.data || containsSub bulletGlyph text.data)) = true := by
    rw [hss, star_of_double _ hss]
    rfl
  have hout : splitLines (format_structured_response text).data =
      (splitLines text.data).map fmtLine := by
    unfold format_structured_response
    rw [hgate]
    show splitLines (joinLines ((splitLines text.data).map fmtLine)) = _
    refine sl_join _ (fun hmap => sl_ne_nil text.data (List.map_eq_nil_iff.mp hmap)) ?_
    intro m hm
    rcases List.mem_map.mp hm with ⟨m0, hm0, rfl⟩
    exact fmtLine_no_nl m0 (mem_sl_no_nl text.data m0 hm0)
  have hline : ∀ i : Nat, (splitLines (format_structured_response text).data).getD i [] =
      fmtLine ((splitLines text.data).getD i []) := by
    intro i
    rw [hout]
    exact getD_map_general fmtLine [] [] rfl _ i
  refine ⟨by rw [hout, List.length_map], fun i => ⟨fun hp => ?_, fun hp => ?_⟩⟩
  · rw [hline i]
    exact fmtLine_bullet _ hp.1 hp.2
  · rw [hline i]
    exact fmtLine_heading _ hp.1 hp.2

/-- C5, witness of the amended theorem on the text consisting of a heading
line and a bullet line: the second line is rewritten to a hyphen bullet. -/
theorem c5_reformat_witness :
    containsSub ['*', '*'] ("**Head**\n* item").data = true ∧
    (splitLines (format_structured_response ("**Head**\n* item")).data).length =
      (splitLines ("**Head**\n* item").data).length ∧
    (splitLines (format_structured_response ("**Head**\n* item")).data).getD 1 [] =
      '-' :: ' ' :: pyStrip ((pyStrip ((splitLines ("**Head**\n* item").data).getD 1 [])).drop 1) := by
  have h := c5_reformat ("**Head**\n* item") (by decide)
  exact ⟨by decide, h.1, (h.2 1).1 (by decide)⟩

/-- C9: the cleaner is idempotent on canonical markdown text: for a text
with no escape sequences and with every line fixed by the line rewriting,
applying the cleaner twice equals applying it once (indeed the cleaner
fixes such a text). -/
theorem c9_clean_idempotent (x : String) (h : Canonical x) : clean (clean x) = clean x := by
  obtain ⟨h1, h2, h3⟩ := h
  have hfix : clean x = x := by
    unfold clean
    rw [replace2_id _ _ _ _ h1, replace2_id _ _ _ _ h2]
    have hmk : String.mk x.data = x := rfl
    rw [hmk]
    split
    · unfold format_structured_response
      split
      · rw [map_id_of_fixed fmtLine _ h3, join_sl]
      · rfl
    · rfl
  rw [hfix, hfix]

/-- C9, witness: a concrete canonical text (heading line, bullet line,
plain line) on which the idempotence theorem applies. -/
theorem c9_clean_idempotent_witness :
    Canonical ("### **Results**\n- item one\nplain text") ∧
    clean (clean ("### **Results**\n- item one\nplain text")) =
      clean ("### **Results**\n- item one\nplain text") :=
  ⟨⟨by decide, by decide, by decide⟩,
    c9_clean_idempotent ("### **Results**\n- item one\nplain text")
      ⟨by decide, by decide, by decide⟩⟩

/-- C10: the claim says every parsed record's categories field equals the
empty string.  The code refutes this: the headless record produced from
`Authors: B. Lee` has no categories entry (`none`, not the empty string);
the Categories rendering branch is still not taken for it. -/
theorem c10_headless_record_categories_absent :
    parse_paper_data ("Authors: B. Lee") =
      [⟨none, none, none, none, some ("B. Lee"), none⟩] ∧
    ((parse_paper_data ("Authors: B. Lee")).getD 0 emptyPaper).categories ≠ some ("") ∧
    categoriesBranchTaken ((parse_paper_data ("Authors: B. Lee")).getD 0 emptyPaper) = false := by
  decide

/-- C6: the classifier returns true exactly when the parser yields at
least two records or at least two raw lines of the input match the bare
numbered-list pattern.  The code checks the numbered lines of the
whole-text-stripped input rather than of the raw input, but the two
readings agree: any text with two numbered lines (under either reading)
has two title-matching lines, hence at least two parsed records, so the
first disjunct is already true. -/
theorem c6_is_paper_list_iff (x : String) :
    is_paper_list_response x = true ↔
      (2 ≤ (parse_paper_data x).length ∨
        2 ≤ ((splitLines x.data).filter numberedLine).length) := by
  have hQ0 : (titleMatch (pyStrip ([] : List Char))).isSome = false := by decide
  have hQc : ∀ (c : Char) (m : List Char), isPyWs c = true →
      (titleMatch (pyStrip (c :: m))).isSome = (titleMatch (pyStrip m)).isSome := by
    intro c m hc
    rw [pyStrip_cons_ws c m hc]
  have hQcat : ∀ (c : Char) (m : List Char), isPyWs c = true →
      (titleMatch (pyStrip (m ++ [c]))).isSome = (titleMatch (pyStrip m)).isSome := by
    intro c m hc
    rw [pyStrip_concat_ws c m hc]
  have hstrip := countP_sl_strip (fun l => (titleMatch (pyStrip l)).isSome) hQ0 hQc hQcat x.data
  have hmono : ∀ (ls : List (List Char)),
      List.countP numberedLine ls ≤
        List.countP (fun l => (titleMatch (pyStrip l)).isSome) ls :=
    fun ls => List.countP_mono_left (fun l _ h => numbered_title l h)
  have hraw : ((splitLines x.data).filter numberedLine).length ≤
      (parse_paper_data x).length := by
    rw [← List.countP_eq_length_filter]
    exact le_trans (hmono _) (countTitle_le_parse x)
  have hstripped : ((splitLines (pyStrip x.data)).filter numberedLine).length ≤
      (parse_paper_data x).length := by
    rw [← List.countP_eq_length_filter]
    exact le_trans (hmono _) (le_of_eq_of_le hstrip (countTitle_le_parse x))
  unfold is_paper_list_response
  by_cases hp : 2 ≤ (parse_paper_data x).length
  · rw [if_pos hp]
    exact ⟨fun _ => Or.inl hp, fun _ => rfl⟩
  · rw [if_neg hp]
    constructor
    · intro h
      exact absurd (le_trans (of_decide_eq_true h) hstripped) hp
    · rintro (h | h)
      · exact absurd h hp
      · exact absurd (le_trans h hraw) hp

/-- C7: Scenario A of the spec, confirmed by evaluation: the seven-line
input yields exactly the two records the claim lists, the second with all
non-title fields present and empty. -/
theorem c7_scenario_a :
    parse_paper_data ("1. **Title**: Deep Learning Basics\nAuthors: J. Doe\nPublished: March 3, 2024\nSummary: An overview.\nhttps://arxiv.org/abs/1234.5678\n2. **Title**: Transformers Explained\nAuthors: A. Smith") =
      [⟨some ("Deep Learning Basics"), some (""), some ("https://arxiv.org/abs/1234.5678"),
        some ("An overview."), some ("J. Doe"), some ("March 3, 2024")⟩,
       ⟨some ("Transformers Explained"), some (""), some (""), some (""),
        some ("A. Smith"), some ("")⟩] := by
  decide

/-- C8: Scenario C of the spec, confirmed by evaluation: the markdown-link
numbered line yields one record whose title is the unwrapped link text and
whose url field is the empty string. -/
theorem c8_markdown_link_title :
    parse_paper_data ("1. [Attention Is All You Need](https://arxiv.org/abs/1706.03762)") =
      [⟨some ("Attention Is All You Need"), some (""), some (""), some (""),
        some (""), some ("")⟩] := by
  decide

/-- C3, counterexample: the claim says the URL column is the sentinel
`N/A` when the record's url field is empty.  The record parsed from
`1. A` has url present and empty, and its table row's URL column is the
empty string, not `N/A` (`paper.get('url', 'N/A')` only falls back for an
absent key). -/
theorem c3_counterexample :
    parse_paper_data ("1. A") =
      [⟨some ("A"), some (""), some (""), some (""), some (""), some ("")⟩] ∧
    create_papers_dataframe (parse_paper_data ("1. A")) = some [⟨("A"), ("")⟩] ∧
    (("") : String) ≠ ("N/A") := by
  decide

/-- C3 (amended): each table row's URL column equals the record's url
entry whenever that entry is present — including when it is the empty
string — and is the sentinel `N/A` exactly when the record has no url
entry (which `parse_paper_data` produces only for headless records). -/
theorem c3_url_column (papers : List Paper) (i : Nat) (hi : i < papers.length) :
    ∃ rows, create_papers_dataframe papers = some rows ∧
      rows.length = papers.length ∧
      (rows.getD i ⟨("Unknown"), ("N/A")⟩).URL = ((papers.getD i emptyPaper).url).getD ("N/A") := by
  have hne : papers.isEmpty = false := by
    cases papers with
    | nil => exact absurd hi (by simp)
    | cons p ps => rfl
  refine ⟨papers.map (fun p => { Title := rowTitle p, URL := p.url.getD ("N/A") }), ?_, List.length_map _ _, ?_⟩
  · unfold create_papers_dataframe
    rw [hne]
    simp
  · have h := getD_map_general
      (fun p => ({ Title := rowTitle p, URL := p.url.getD ("N/A") } : Row))
      emptyPaper ⟨("Unknown"), ("N/A")⟩ (by decide) papers i
    rw [h]

/-- C3, witness of the amended theorem at the record parsed from `1. A`
(url entry present and empty, so the URL column is the empty string). -/
theorem c3_url_column_witness :
    0 < (parse_paper_data ("1. A")).length ∧
    ∃ rows, create_papers_dataframe (parse_paper_data ("1. A")) = some rows ∧
      rows.length = (parse_paper_data ("1. A")).length ∧
      (rows.getD 0 ⟨("Unknown"), ("N/A")⟩).URL =
        (((parse_paper_data ("1. A")).getD 0 emptyPaper).url).getD ("N/A") :=
  ⟨by decide, c3_url_column (parse_paper_data ("1. A")) 0 (by decide)⟩

/-- C5, counterexample: the claim says any text containing a structural
marker is reformatted line by line, with a single-asterisk line becoming a
hyphen bullet.  The text `* item` contains the marker `*` yet passes
through the cleaner unchanged, because `format_structured_response` only
reformats when the text contains a double asterisk. -/
theorem c5_counterexample :
    anyStructMarker ("* item").data = true ∧
    clean ("* item") = ("* item") ∧
    clean ("* item") ≠ ("- item") := by
  decide

end ArxivApp
